import Mathlib

/-!
Verification of the irr error-chain library (Go) against its specification.

The embedding models the library's core file (`BasicIrr` and its methods:
`Root`, `Source`, `TraverseToRoot`, `TraverseToSource`, `TraverseCode`,
`ToString`, `NearestCode`, `RootCode`, `SetCode`, `SetTag`, `GetTag`, ...)
together with the package constructors (`Error`, `ErrorC`, `Wrap`, `Trace`,
`Track`) and the trace-collapsing helper `createTraceInfo`.

Modelling conventions:
* A Go `error` interface value in a chain is an `Err`: nil, a `*BasicIrr`
  node of this library, or a foreign error.  A foreign error is
  parameterised by its `Error()` string, whether it exposes the
  `CurrentCode() int64` capability, whether it exposes the
  `GetCode() int64` capability, and what `errors.Unwrap` yields on it
  (`Err.nil` models both "no Unwrap method" and "Unwrap returns nil",
  which are indistinguishable to every algorithm here).
* Messages are modelled post-formatting: the Go constructors run
  `fmt.Sprintf` eagerly, so a node simply carries the resulting string.
* Frame capture (`runtime.Caller`) is an external collaborator; the
  constructors that capture a frame take the captured
  `{function, file, line}` record as an explicit argument.
* Visitor callbacks may mutate captured locals and may panic.  A visitor is
  therefore a state-passing function returning a `VStep`: a normal `error`
  result or a panic with its payload.  Each traversal method's
  `defer`/`recover` block is modelled by running the un-recovered loop
  (which can end in a `panicked` outcome) and then translating a panic into
  the returned error, exactly as the Go recover branch does.
* Metrics notifications (`recordTraverseOp`, `recordErrorWithCode`) go to an
  external observer and have no effect on the data model; they are omitted.
-/

namespace Irr

/-- `traceInfo` from trace.go: a captured `{function, file, line}` frame. -/
structure TraceInfo where
  funcName : String
  fileName : String
  line : Nat
  deriving DecidableEq, Repr

mutual

/-- The `BasicIrr` struct: code, the `codeSet` flag, message, optional
trace, the tag-map content (key to insertion-ordered values), and the inner
wrapped error. -/
inductive BasicIrr : Type where
  | mk (code : Int) (codeSet : Bool) (msg : String) (trace : Option TraceInfo)
      (tags : List (String × List String)) (inner : Err)

/-- A Go `error` interface value in a chain: nil, a `*BasicIrr` node, or a
foreign error (its `Error()` string, its optional `CurrentCode`/`GetCode`
capabilities, and what `errors.Unwrap` yields on it). -/
inductive Err : Type where
  | nil
  | node (b : BasicIrr)
  | foreign (msg : String) (curCode : Option Int) (getCodeCap : Option Int)
      (unwrapsTo : Err)

end

deriving instance DecidableEq for BasicIrr, Err

def BasicIrr.code : BasicIrr → Int
  | .mk c _ _ _ _ _ => c

def BasicIrr.codeSet : BasicIrr → Bool
  | .mk _ s _ _ _ _ => s

def BasicIrr.msg : BasicIrr → String
  | .mk _ _ m _ _ _ => m

def BasicIrr.trace : BasicIrr → Option TraceInfo
  | .mk _ _ _ t _ _ => t

def BasicIrr.tags : BasicIrr → List (String × List String)
  | .mk _ _ _ _ tg _ => tg

def BasicIrr.inner : BasicIrr → Err
  | .mk _ _ _ _ _ i => i

/-- `errors.Unwrap`: nil has no `Unwrap` method (yields nil);
`BasicIrr.Unwrap` returns the inner field; a foreign error yields whatever
its own unwrap capability gives (nil when absent). -/
def unwrap : Err → Err
  | .nil => .nil
  | .node b => b.inner
  | .foreign _ _ _ u => u

/-- The `Root` method's loop body, from an arbitrary starting `error` value:
`inner := errors.Unwrap(err); if inner == nil → return err; err = inner`. -/
def Err.root : Err → Err
  | .nil => .nil
  | .node (.mk c s m t tg .nil) => .node (.mk c s m t tg .nil)
  | .node (.mk _ _ _ _ _ i) => i.root
  | .foreign m cc gc .nil => .foreign m cc gc .nil
  | .foreign _ _ _ u => u.root

/-- `Root` on a node (the Go method; its loop starts at the receiver). -/
def Root (ir : BasicIrr) : Err :=
  Err.root (.node ir)

/-- The list of `error` values visited by a generic unwrap walk starting at
`e` (the visit order of `TraverseToRoot`); nil visits nothing. -/
def visitList : Err → List Err
  | .nil => []
  | .node (.mk c s m t tg .nil) => [.node (.mk c s m t tg .nil)]
  | .node (.mk c s m t tg i) => .node (.mk c s m t tg i) :: visitList i
  | .foreign m cc gc .nil => [.foreign m cc gc .nil]
  | .foreign m cc gc u => .foreign m cc gc u :: visitList u

/-- The source of a chain, stated directly from the stopping rule: walk only
through node-typed inner links; a node with nil inner is its own source; a
foreign inner is the source (its own unwrap capability is never
consulted). -/
def sourceSpec : BasicIrr → Err
  | .mk c s m t tg .nil => .node (.mk c s m t tg .nil)
  | .mk _ _ _ _ _ (.node next) => sourceSpec next
  | .mk _ _ _ _ _ (.foreign fm cc gc u) => .foreign fm cc gc u

/-- A panic payload raised inside a visitor: an error value, or a non-error
payload together with its `%v` text rendering. -/
inductive Panicked : Type where
  | perr (e : Err)
  | pnon (text : String)
  deriving DecidableEq

/-- One visitor call's outcome: a normal `error` return (`Err.nil` when the
visitor returns nil), or a panic. -/
inductive VStep : Type where
  | ret (r : Err)
  | thrown (p : Panicked)
  deriving DecidableEq

/-- Outcome of a traversal loop when run without the `defer`/`recover`
wrapper: normal completion with the returned error, or a panic escaping the
loop. -/
inductive TravOut (σ : Type) : Type where
  | norm (s : σ) (r : Err)
  | panicked (s : σ) (p : Panicked)

/-- `ErrUntypedExecutionFailure = errors.New("untyped execution failure")`
from types.go. -/
def errUntypedExecutionFailure : Err :=
  .foreign "untyped execution failure" none none .nil

/-- The shared `recover` branch of both traversal methods: an error payload
is returned as-is, any other payload `r` yields
`Wrap(ErrUntypedExecutionFailure, "panic = %v", r)`. -/
def recoverVal : Panicked → Err
  | .perr e => e
  | .pnon t =>
    .node (.mk 0 false ("panic = " ++ t) none [] errUntypedExecutionFailure)

/-- The `TraverseToRoot` loop without its recover wrapper: visit the current
value; a non-nil visitor result is returned at once; otherwise advance by
`errors.Unwrap` until nil. -/
def traverseToRootAux {σ : Type} (fn : Err → σ → σ × VStep) : Err → σ → TravOut σ
  | .nil, s => .norm s .nil
  | .node (.mk c cs m t tg i), s =>
    match fn (.node (.mk c cs m t tg i)) s with
    | (s', .thrown p) => .panicked s' p
    | (s', .ret .nil) => traverseToRootAux fn i s'
    | (s', .ret r) => .norm s' r
  | .foreign m cc gc u, s =>
    match fn (.foreign m cc gc u) s with
    | (s', .thrown p) => .panicked s' p
    | (s', .ret .nil) => traverseToRootAux fn u s'
    | (s', .ret r) => .norm s' r

/-- `TraverseToRoot` (the loop plus the deferred recover). -/
def TraverseToRoot {σ : Type} (fn : Err → σ → σ × VStep) (ir : BasicIrr)
    (s : σ) : σ × Err :=
  match traverseToRootAux fn (.node ir) s with
  | .norm s' r => (s', r)
  | .panicked s' p => (s', recoverVal p)

/-- The `TraverseToSource` loop without its recover wrapper.  At each node
`isSource := (inner == nil)` is passed to the visitor; the visitor's result
is returned only at the source; at a node whose inner is another node the
result is discarded and the walk continues; a foreign inner is visited once
with `isSource = true` and that call's result is returned. -/
def traverseToSourceAux {σ : Type} (fn : Err → Bool → σ → σ × VStep) :
    BasicIrr → σ → TravOut σ
  | .mk c cs m t tg .nil, s =>
    match fn (.node (.mk c cs m t tg .nil)) true s with
    | (s', .thrown p) => .panicked s' p
    | (s', .ret r) => .norm s' r
  | .mk c cs m t tg (.node next), s =>
    match fn (.node (.mk c cs m t tg (.node next))) false s with
    | (s', .thrown p) => .panicked s' p
    | (s', .ret _) => traverseToSourceAux fn next s'
  | .mk c cs m t tg (.foreign fm fcc fgc fu), s =>
    match fn (.node (.mk c cs m t tg (.foreign fm fcc fgc fu))) false s with
    | (s', .thrown p) => .panicked s' p
    | (s', .ret _) =>
      match fn (.foreign fm fcc fgc fu) true s' with
      | (s'', .thrown p) => .panicked s'' p
      | (s'', .ret r') => .norm s'' r'

/-- `TraverseToSource` (the loop plus the deferred recover). -/
def TraverseToSource {σ : Type} (fn : Err → Bool → σ → σ × VStep)
    (ir : BasicIrr) (s : σ) : σ × Err :=
  match traverseToSourceAux fn ir s with
  | .norm s' r => (s', r)
  | .panicked s' p => (s', recoverVal p)

/-- The closure of `Source` (and of the first phase of `RootCode`): record
the value visited with `isSource = true` in a captured variable, always
return nil to the traversal. -/
def sourceVisitor : Err → Bool → Err → Err × VStep :=
  fun e isSource acc => (if isSource then e else acc, .ret .nil)

/-- `Source`: run `TraverseToSource` with `sourceVisitor` over a captured
nil-initialised variable; the traversal's own return is discarded. -/
def Source (ir : BasicIrr) : Err :=
  (TraverseToSource sourceVisitor ir .nil).fst

/-- The code-reading probe of `TraverseCode`: a node answers via its
`CurrentCode` method (its own code field); a foreign error answers through
its `CurrentCode` capability if exposed, else its `GetCode` capability if
exposed, else 0; nil exposes nothing. -/
def readCodeCap : Err → Int
  | .nil => 0
  | .node b => b.code
  | .foreign _ (some c) _ _ => c
  | .foreign _ none (some c) _ => c
  | .foreign _ none none _ => 0

/-- `TraverseCode`: `TraverseToRoot` with the code probe at every link; the
wrapper forwards the visitor's result (nil continues, non-nil stops). -/
def TraverseCode {σ : Type} (fn : Err → Int → σ → σ × VStep) (ir : BasicIrr)
    (s : σ) : σ × Err :=
  TraverseToRoot (fun e st => fn e (readCodeCap e) st) ir s

/-- The `eExit := errors.New("stop")` sentinel allocated by `NearestCode`. -/
def eExit : Err := .foreign "stop" none none .nil

/-- `NearestCode`: scan with `TraverseCode`, record the first non-zero code
in `val` and stop by returning the `eExit` sentinel; return `val` (0 when
nothing non-zero was seen).  The method's guard branch (`panic` when the
traversal result is neither nil nor `eExit`) is unreachable for this
visitor, see `nearestCode_run_result`. -/
def NearestCode (ir : BasicIrr) : Int :=
  (TraverseCode
    (fun _ code val => if code ≠ 0 then (code, .ret eExit) else (val, .ret .nil))
    ir 0).fst

/-- `CurrentCode`: the node's own code field. -/
def CurrentCode (ir : BasicIrr) : Int := ir.code

/-- `RootCode`: locate the source via `TraverseToSource` with the same
recording closure as `Source`, then read that one link's code (node field,
else `CurrentCode` capability, else `GetCode` capability, else 0). -/
def RootCode (ir : BasicIrr) : Int :=
  match (TraverseToSource sourceVisitor ir .nil).fst with
  | .nil => 0
  | .node b => b.code
  | .foreign _ (some c) _ _ => c
  | .foreign _ none (some c) _ => c
  | .foreign _ none none _ => 0

/-- `HasCurrentCode`: the `codeSet` flag. -/
def HasCurrentCode (ir : BasicIrr) : Bool := ir.codeSet

/-- `HasAnyCode`: whether `NearestCode` is non-zero. -/
def HasAnyCode (ir : BasicIrr) : Bool := decide (NearestCode ir ≠ 0)

/-- Deprecated `GetCode`: returns `NearestCode()`. -/
def GetCode (ir : BasicIrr) : Int := NearestCode ir

/-- Deprecated `ClosestCode`: returns `NearestCode()`. -/
def ClosestCode (ir : BasicIrr) : Int := NearestCode ir

/-- `SetCode`: store the code, raise the `codeSet` flag (regardless of the
value), return the receiver.  The metrics notification is external. -/
def SetCode : BasicIrr → Int → BasicIrr
  | .mk _ _ m t tg i, val => .mk val true m t tg i

/-- `GetCodeStr`: empty when the code is 0, else the prefix
`fmt.Sprintf("code(%d), ", ir.Code)`. -/
def GetCodeStr (ir : BasicIrr) : String :=
  if ir.code = 0 then "" else "code(" ++ toString ir.code ++ "), "

/-- `traceInfo.writeTo`: exactly `function@file:line`. -/
def TraceInfo.render (t : TraceInfo) : String :=
  t.funcName ++ "@" ++ t.fileName ++ ":" ++ toString t.line

/-- `writeSelfTo`: append the code prefix (only when `printCode` and the
prefix is non-empty), the message, every tag as `[key:value] `, and, when
`printTrace` and a trace is present, a space plus the trace rendering.
The Go map's iteration order across tag keys is unspecified; the model
iterates keys in first-insertion order. -/
def writeSelfTo (ir : BasicIrr) (sb : String) (printTrace printCode : Bool) :
    String :=
  let sb1 := if printCode then sb ++ GetCodeStr ir else sb
  let sb2 := sb1 ++ ir.msg
  let sb3 := ir.tags.foldl
    (fun acc kv => kv.2.foldl (fun a v => a ++ "[" ++ kv.1 ++ ":" ++ v ++ "] ") acc) sb2
  match printTrace, ir.trace with
  | true, some t => sb3 ++ " " ++ t.render
  | _, _ => sb3

/-- The closure of `ToString`: thread the string builder and the `lastCode`
value; a node writes itself with `printCode := lastCode != code` and then
updates `lastCode`; a foreign link writes its own `Error()` string verbatim;
the separator follows every visited link except the source. -/
def toStringVisitor (printTrace : Bool) (split : String) :
    Err → Bool → String × Int → (String × Int) × VStep :=
  fun e isSource st =>
    let st' := match e with
      | .node b => (writeSelfTo b st.1 printTrace (decide (st.2 ≠ b.code)), b.code)
      | .foreign m _ _ _ => (st.1 ++ m, st.2)
      | .nil => st
    ((if isSource then st' else (st'.1 ++ split, st'.2)), .ret .nil)

/-- `ToString`: a `TraverseToSource` over the builder state, with `lastCode`
seeded 0. -/
def ToString (ir : BasicIrr) (printTrace : Bool) (split : String) : String :=
  (TraverseToSource (toStringVisitor printTrace split) ir ("", (0 : Int))).fst.fst

/-- The `Error()` method of `BasicIrr`: `ToString(false, ", ")`. -/
def BasicIrr.errorString (ir : BasicIrr) : String := ToString ir false ", "

/-- The `Error()` string of a chain value: a node renders through
`ToString(false, ", ")`, a foreign error is its own string, nil has none
(calling it would be a nil dereference; the model returns ""). -/
def Err.errorString : Err → String
  | .nil => ""
  | .node b => b.errorString
  | .foreign m _ _ _ => m

/-- `newBasicIrr`: zero code, flag down, no trace, no tags, no inner.  The
message is modelled post-`fmt.Sprintf`. -/
def newBasicIrr (msg : String) : BasicIrr := .mk 0 false msg none [] .nil

def BasicIrr.withInner : BasicIrr → Err → BasicIrr
  | .mk c s m t tg _, i => .mk c s m t tg i

def BasicIrr.withTrace : BasicIrr → Option TraceInfo → BasicIrr
  | .mk c s m _ tg i, t => .mk c s m t tg i

/-- The package constructor `Error` (the spec's `New`). -/
def Error (msg : String) : BasicIrr := newBasicIrr msg

/-- `ErrorC`: `newBasicIrr` followed by `SetCode`. -/
def ErrorC (code : Int) (msg : String) : BasicIrr := SetCode (newBasicIrr msg) code

/-- `Wrap`: `newBasicIrr` with the inner error attached, no trace. -/
def Wrap (innerErr : Err) (msg : String) : BasicIrr :=
  (newBasicIrr msg).withInner innerErr

/-- `createTraceInfo` (pkg.go): `captured` is the frame the external
frame-capture collaborator returns for the requested skip depth.  When the
inner error is an `IRR` node already carrying a trace structurally equal to
`captured`, nil is returned (no trace attached); in every other case
`captured` is attached. -/
def createTraceInfo (captured : TraceInfo) (innerErr : Err) : Option TraceInfo :=
  match innerErr with
  | .nil => some captured
  | .node b =>
    match b.trace with
    | none => some captured
    | some tr => if tr = captured then none else some captured
  | .foreign _ _ _ _ => some captured

/-- `TraceSkip` with the externally captured frame made explicit (the skip
arithmetic only selects which stack frame is captured). -/
def TraceSkip (captured : TraceInfo) (msg : String) : BasicIrr :=
  (newBasicIrr msg).withTrace (createTraceInfo captured .nil)

/-- `Trace` = `TraceSkip(1, ...)`: same frame parameterisation. -/
def Trace (captured : TraceInfo) (msg : String) : BasicIrr :=
  TraceSkip captured msg

/-- `TrackSkip`: inner attached, trace = `createTraceInfo` of the captured
frame against the inner error. -/
def TrackSkip (captured : TraceInfo) (innerErr : Err) (msg : String) : BasicIrr :=
  ((newBasicIrr msg).withInner innerErr).withTrace (createTraceInfo captured innerErr)

/-- `Track` = `TrackSkip(1, ...)`: same frame parameterisation. -/
def Track (captured : TraceInfo) (innerErr : Err) (msg : String) : BasicIrr :=
  TrackSkip captured innerErr msg

/-- `GetTraceInfo`: the node's trace field (`none` = nil). -/
def GetTraceInfo (ir : BasicIrr) : Option TraceInfo := ir.trace

/-- Content update of the tag map:
`newTags[key] = append(newTags[key], val)`. -/
def setTagAssoc : List (String × List String) → String → String →
    List (String × List String)
  | [], key, val => [(key, [val])]
  | (k, vs) :: rest, key, val =>
    if k = key then (k, vs ++ [val]) :: rest
    else (k, vs) :: setTagAssoc rest key val

/-- `SetTag` at the node level: the content effect of the copy-then-append
update (slice aliasing is studied separately in the `TagStore` heap
model). -/
def SetTag : BasicIrr → String → String → BasicIrr
  | .mk c s m t tg i, key, val => .mk c s m t (setTagAssoc tg key val) i

def getTagAssoc : List (String × List String) → String → Option (List String)
  | [], _ => none
  | (k, vs) :: rest, key => if k = key then some vs else getTagAssoc rest key

/-- `GetTag` at the node level: `none` models the nil slice the Go method
returns when the map is nil or the key is absent; `some vs` is the copied
value list. -/
def GetTag (ir : BasicIrr) (key : String) : Option (List String) :=
  getTagAssoc ir.tags key

/-- The `TraverseToRoot` loop body replayed over an explicit list of links:
each call whose return is non-nil stops the run at once (no further calls);
a panic stops it likewise; an exhausted list ends normally with nil. -/
def runVisits {σ : Type} (fn : Err → σ → σ × VStep) : List Err → σ → TravOut σ
  | [], s => .norm s .nil
  | e :: rest, s =>
    match fn e s with
    | (s', .thrown p) => .panicked s' p
    | (s', .ret .nil) => runVisits fn rest s'
    | (s', .ret r) => .norm s' r

theorem traverseToRootAux_eq_runVisits {σ : Type} (fn : Err → σ → σ × VStep) :
    ∀ (e : Err) (s : σ), traverseToRootAux fn e s = runVisits fn (visitList e) s
  | .nil, s => rfl
  | .node (.mk c cs m t tg .nil), s => by
    simp only [traverseToRootAux, visitList, runVisits]
  | .node (.mk c cs m t tg (.node b)), s => by
    simp only [traverseToRootAux, visitList, runVisits]
    rcases fn (.node (.mk c cs m t tg (.node b))) s with ⟨s', r | p⟩
    · cases r with
      | nil => exact traverseToRootAux_eq_runVisits fn (.node b) s'
      | node b' => rfl
      | foreign fm fcc fgc fu => rfl
    · rfl
  | .node (.mk c cs m t tg (.foreign fm fcc fgc fu)), s => by
    simp only [traverseToRootAux, visitList, runVisits]
    rcases fn (.node (.mk c cs m t tg (.foreign fm fcc fgc fu))) s with ⟨s', r | p⟩
    · cases r with
      | nil => exact traverseToRootAux_eq_runVisits fn (.foreign fm fcc fgc fu) s'
      | node b' => rfl
      | foreign gm gcc ggc gu => rfl
    · rfl
  | .foreign m cc gc .nil, s => by
    simp only [traverseToRootAux, visitList, runVisits]
  | .foreign m cc gc (.node b), s => by
    simp only [traverseToRootAux, visitList, runVisits]
    rcases fn (.foreign m cc gc (.node b)) s with ⟨s', r | p⟩
    · cases r with
      | nil => exact traverseToRootAux_eq_runVisits fn (.node b) s'
      | node b' => rfl
      | foreign gm gcc ggc gu => rfl
    · rfl
  | .foreign m cc gc (.foreign gm gcc ggc gu), s => by
    simp only [traverseToRootAux, visitList, runVisits]
    rcases fn (.foreign m cc gc (.foreign gm gcc ggc gu)) s with ⟨s', r | p⟩
    · cases r with
      | nil => exact traverseToRootAux_eq_runVisits fn (.foreign gm gcc ggc gu) s'
      | node b' => rfl
      | foreign hm hcc hgc hu => rfl
    · rfl

/-- The source-walk with the recording closure always ends normally, having
recorded exactly `sourceSpec`. -/
theorem traverseToSourceAux_sourceVisitor :
    ∀ (ir : BasicIrr) (acc : Err),
      traverseToSourceAux sourceVisitor ir acc = .norm (sourceSpec ir) .nil
  | .mk c cs m t tg .nil, acc => by
    simp [traverseToSourceAux, sourceSpec, sourceVisitor]
  | .mk c cs m t tg (.node next), acc => by
    simp only [traverseToSourceAux, sourceSpec, sourceVisitor]
    exact traverseToSourceAux_sourceVisitor next acc
  | .mk c cs m t tg (.foreign fm fcc fgc fu), acc => by
    simp [traverseToSourceAux, sourceSpec, sourceVisitor]

/-- `Source` computes `sourceSpec`. -/
theorem Source_eq_sourceSpec (ir : BasicIrr) : Source ir = sourceSpec ir := by
  simp [Source, TraverseToSource, traverseToSourceAux_sourceVisitor ir .nil]

/-- `Root` reaches the last link of the unwrap walk (any default). -/
theorem root_eq_getLastD :
    ∀ (e : Err) (d : Err), e ≠ .nil → (visitList e).getLastD d = Err.root e
  | .nil, d, h => absurd rfl h
  | .node (.mk c cs m t tg .nil), d, _ => rfl
  | .node (.mk c cs m t tg (.node b)), d, _ => by
    have ih := root_eq_getLastD (.node b) (.node (.mk c cs m t tg (.node b)))
      (by intro hx; cases hx)
    simp only [visitList, Err.root, List.getLastD_cons]
    exact ih
  | .node (.mk c cs m t tg (.foreign fm fcc fgc fu)), d, _ => by
    have ih := root_eq_getLastD (.foreign fm fcc fgc fu)
      (.node (.mk c cs m t tg (.foreign fm fcc fgc fu))) (by intro hx; cases hx)
    simp only [visitList, Err.root, List.getLastD_cons]
    exact ih
  | .foreign m cc gc .nil, d, _ => rfl
  | .foreign m cc gc (.node b), d, _ => by
    have ih := root_eq_getLastD (.node b) (.foreign m cc gc (.node b))
      (by intro hx; cases hx)
    simp only [visitList, Err.root, List.getLastD_cons]
    exact ih
  | .foreign m cc gc (.foreign gm gcc ggc gu), d, _ => by
    have ih := root_eq_getLastD (.foreign gm gcc ggc gu)
      (.foreign m cc gc (.foreign gm gcc ggc gu)) (by intro hx; cases hx)
    simp only [visitList, Err.root, List.getLastD_cons]
    exact ih

/-- The first non-zero code along a list of links, probing each link's
code-reading capability; 0 when none is found. -/
def firstNonzeroCode : List Err → Int
  | [] => 0
  | e :: rest => if readCodeCap e ≠ 0 then readCodeCap e else firstNonzeroCode rest

/-- Running the `NearestCode` closure over a list of links: it stops with
`eExit` at the first non-zero probed code, recording it; otherwise it runs
out with the start value untouched. -/
theorem runVisits_nearest :
    ∀ (l : List Err) (val : Int),
      runVisits (fun e st =>
          (fun _ code val => if code ≠ 0 then (code, VStep.ret eExit) else (val, VStep.ret .nil))
            e (readCodeCap e) st) l val =
        if firstNonzeroCode l ≠ 0 then .norm (firstNonzeroCode l) eExit
        else .norm val .nil
  | [], val => by simp [runVisits, firstNonzeroCode]
  | e :: rest, val => by
    by_cases h : readCodeCap e = 0
    · simp only [runVisits, firstNonzeroCode, h]
      simp only [ne_eq, not_true_eq_false, if_neg (by simp : ¬(0 : Int) ≠ 0)]
      exact runVisits_nearest rest val
    · simp only [runVisits, firstNonzeroCode, if_pos h]
      simp [h, eExit]

/-- `NearestCode` is the first non-zero code along the generic unwrap walk
starting at the receiver. -/
theorem NearestCode_eq_firstNonzero (ir : BasicIrr) :
    NearestCode ir = firstNonzeroCode (visitList (.node ir)) := by
  simp only [NearestCode, TraverseCode, TraverseToRoot,
    traverseToRootAux_eq_runVisits, runVisits_nearest]
  by_cases h : firstNonzeroCode (visitList (.node ir)) = 0 <;> simp [h]

/-- The traversal inside `NearestCode` never produces an error other than
nil or the `eExit` sentinel, so the method's `panic("traverse panic")`
guard is unreachable. -/
theorem nearestCode_run_result (ir : BasicIrr) :
    (TraverseCode
        (fun _ code val => if code ≠ 0 then (code, VStep.ret eExit) else (val, VStep.ret .nil))
        ir 0).snd = .nil ∨
      (TraverseCode
        (fun _ code val => if code ≠ 0 then (code, VStep.ret eExit) else (val, VStep.ret .nil))
        ir 0).snd = eExit := by
  simp only [TraverseCode, TraverseToRoot,
    traverseToRootAux_eq_runVisits, runVisits_nearest]
  by_cases h : firstNonzeroCode (visitList (.node ir)) = 0 <;> simp [h]

/-- `RootCode` reads exactly the code capability of the chain's source. -/
theorem RootCode_eq_readCode_sourceSpec (ir : BasicIrr) :
    RootCode ir = readCodeCap (sourceSpec ir) := by
  simp only [RootCode, TraverseToSource, traverseToSourceAux_sourceVisitor ir .nil]
  cases hs : sourceSpec ir with
  | nil => rfl
  | node b => rfl
  | foreign m cc gc u => cases cc <;> cases gc <;> rfl

/-- A string fold that only ever appends distributes over a prefix. -/
theorem foldl_append_pre {β : Type} (f : String → β → String)
    (hf : ∀ (pre acc : String) (b : β), f (pre ++ acc) b = pre ++ f acc b) :
    ∀ (l : List β) (pre acc : String),
      l.foldl f (pre ++ acc) = pre ++ l.foldl f acc
  | [], pre, acc => rfl
  | b :: rest, pre, acc => by
    simp only [List.foldl_cons, hf]
    exact foldl_append_pre f hf rest pre (f acc b)

theorem tagFold_pre (kv : String × List String) :
    ∀ (pre acc : String),
      kv.2.foldl (fun a v => a ++ "[" ++ kv.1 ++ ":" ++ v ++ "] ") (pre ++ acc) =
        pre ++ kv.2.foldl (fun a v => a ++ "[" ++ kv.1 ++ ":" ++ v ++ "] ") acc := by
  intro pre acc
  exact foldl_append_pre _ (by intro p a v; simp [String.append_assoc]) kv.2 pre acc

/-- `writeSelfTo` only appends to the incoming builder. -/
theorem writeSelfTo_pre (ir : BasicIrr) (sb : String) (printTrace printCode : Bool) :
    writeSelfTo ir sb printTrace printCode = sb ++ writeSelfTo ir "" printTrace printCode := by
  simp only [writeSelfTo]
  have h1 : (if printCode then sb ++ GetCodeStr ir else sb) ++ ir.msg =
      sb ++ ((if printCode then "" ++ GetCodeStr ir else "") ++ ir.msg) := by
    cases printCode <;> simp [String.append_assoc]
  rw [h1]
  have h2 : ∀ (pre acc : String),
      ir.tags.foldl
        (fun acc kv => kv.2.foldl (fun a v => a ++ "[" ++ kv.1 ++ ":" ++ v ++ "] ") acc)
        (pre ++ acc) =
      pre ++ ir.tags.foldl
        (fun acc kv => kv.2.foldl (fun a v => a ++ "[" ++ kv.1 ++ ":" ++ v ++ "] ") acc)
        acc := by
    intro pre acc
    exact foldl_append_pre _ (by intro p a kv; exact tagFold_pre kv p a) ir.tags pre acc
  rw [h2]
  cases printTrace with
  | false => rfl
  | true =>
    cases ir.trace with
    | none => rfl
    | some t => simp [String.append_assoc]

/-- The `lastCode` value held by the `ToString` closure when the walk ends:
the code of the deepest node visited. -/
def chainLastCode : BasicIrr → Int
  | .mk c _ _ _ _ .nil => c
  | .mk _ _ _ _ _ (.node next) => chainLastCode next
  | .mk c _ _ _ _ (.foreign _ _ _ _) => c

/-- The rendered chain in closed form: each node contributes its own piece
(code prefix governed by the previous rendered node's code, seeded 0), a
foreign terminal contributes its `Error()` string verbatim, the separator
follows every piece but the last. -/
def renderChain (printTrace : Bool) (split : String) : BasicIrr → Int → String
  | .mk c s m t tg .nil, lastCode =>
    writeSelfTo (.mk c s m t tg .nil) "" printTrace (decide (lastCode ≠ c))
  | .mk c s m t tg (.node next), lastCode =>
    writeSelfTo (.mk c s m t tg (.node next)) "" printTrace (decide (lastCode ≠ c)) ++
      split ++ renderChain printTrace split next c
  | .mk c s m t tg (.foreign fm fcc fgc fu), lastCode =>
    writeSelfTo (.mk c s m t tg (.foreign fm fcc fgc fu)) "" printTrace
      (decide (lastCode ≠ c)) ++ split ++ fm

/-- The `ToString` walk, from any builder state: it ends normally, appending
exactly the closed-form rendering and leaving the deepest node's code in
`lastCode`. -/
theorem traverseToSourceAux_toString (printTrace : Bool) (split : String) :
    ∀ (ir : BasicIrr) (sb : String) (lastCode : Int),
      traverseToSourceAux (toStringVisitor printTrace split) ir (sb, lastCode) =
        .norm (sb ++ renderChain printTrace split ir lastCode, chainLastCode ir) .nil
  | .mk c s m t tg .nil, sb, lastCode => by
    simp only [traverseToSourceAux, toStringVisitor, renderChain, chainLastCode,
      BasicIrr.code]
    rw [if_pos trivial, writeSelfTo_pre]
  | .mk c s m t tg (.node next), sb, lastCode => by
    simp only [traverseToSourceAux, toStringVisitor, renderChain, chainLastCode,
      BasicIrr.code]
    rw [if_neg (by simp : ¬(false = true))]
    rw [traverseToSourceAux_toString printTrace split next
      (writeSelfTo (.mk c s m t tg (.node next)) sb printTrace (decide (lastCode ≠ c)) ++ split) c]
    rw [writeSelfTo_pre]
    simp [String.append_assoc]
  | .mk c s m t tg (.foreign fm fcc fgc fu), sb, lastCode => by
    simp only [traverseToSourceAux, toStringVisitor, renderChain, chainLastCode,
      BasicIrr.code]
    rw [if_neg (by simp : ¬(false = true))]
    rw [writeSelfTo_pre]
    simp [String.append_assoc]

/-- `ToString` computes the closed-form rendering with `lastCode` seeded 0. -/
theorem ToString_eq_renderChain (ir : BasicIrr) (printTrace : Bool) (split : String) :
    ToString ir printTrace split = renderChain printTrace split ir 0 := by
  simp only [ToString, TraverseToSource, traverseToSourceAux_toString]
  simp [String.empty_append]

/-- In the root walk, a visitor call that returns a non-nil error ends the
loop at once, with that call's state and that error: no later link is
visited. -/
theorem traverseToRootAux_stop {σ : Type} (fn : Err → σ → σ × VStep)
    (e : Err) (s s' : σ) (r : Err) (he : e ≠ .nil)
    (h : fn e s = (s', .ret r)) (hr : r ≠ .nil) :
    traverseToRootAux fn e s = .norm s' r := by
  cases r with
  | nil => exact absurd rfl hr
  | node rb =>
    cases e with
    | nil => exact absurd rfl he
    | node b => cases b with
      | mk c cs m t tg i => simp only [traverseToRootAux, h]
    | foreign m cc gc u => simp only [traverseToRootAux, h]
  | foreign rm rcc rgc ru =>
    cases e with
    | nil => exact absurd rfl he
    | node b => cases b with
      | mk c cs m t tg i => simp only [traverseToRootAux, h]
    | foreign m cc gc u => simp only [traverseToRootAux, h]

/-- `TraverseToRoot` propagates a non-nil visitor return as its result. -/
theorem TraverseToRoot_stop {σ : Type} (fn : Err → σ → σ × VStep)
    (ir : BasicIrr) (s s' : σ) (r : Err)
    (h : fn (.node ir) s = (s', .ret r)) (hr : r ≠ .nil) :
    TraverseToRoot fn ir s = (s', r) := by
  simp only [TraverseToRoot,
    traverseToRootAux_stop fn (.node ir) s s' r (by intro hx; cases hx) h hr]

/-- In the source walk, the value returned by the visitor at a node whose
inner is another node is discarded — whatever it is, nil or not — and the
walk continues at the next node with the visitor's state. -/
theorem traverseToSourceAux_discard {σ : Type} (fn : Err → Bool → σ → σ × VStep)
    (c : Int) (cs : Bool) (m : String) (t : Option TraceInfo)
    (tg : List (String × List String)) (next : BasicIrr) (s s' : σ) (r : Err)
    (h : fn (.node (.mk c cs m t tg (.node next))) false s = (s', .ret r)) :
    traverseToSourceAux fn (.mk c cs m t tg (.node next)) s =
      traverseToSourceAux fn next s' := by
  simp only [traverseToSourceAux, h]

/-- A panic escaping the root-walk loop is converted by the recover wrapper
into the normal result `recoverVal`. -/
theorem TraverseToRoot_recover {σ : Type} (fn : Err → σ → σ × VStep)
    (ir : BasicIrr) (s s' : σ) (p : Panicked)
    (h : traverseToRootAux fn (.node ir) s = .panicked s' p) :
    TraverseToRoot fn ir s = (s', recoverVal p) := by
  simp only [TraverseToRoot, h]

/-- A panic escaping the source-walk loop is converted by the recover
wrapper into the normal result `recoverVal`. -/
theorem TraverseToSource_recover {σ : Type} (fn : Err → Bool → σ → σ × VStep)
    (ir : BasicIrr) (s s' : σ) (p : Panicked)
    (h : traverseToSourceAux fn ir s = .panicked s' p) :
    TraverseToSource fn ir s = (s', recoverVal p) := by
  simp only [TraverseToSource, h]

/-- The recovered error for a non-error panic payload renders with the
payload text embedded after the `panic = ` prefix and before the wrapped
sentinel's own message. -/
theorem errorString_recoverVal_pnon (t : String) :
    Err.errorString (recoverVal (.pnon t)) =
      "panic = " ++ (t ++ ", untyped execution failure") := by
  simp only [recoverVal, Err.errorString, BasicIrr.errorString,
    ToString_eq_renderChain, errUntypedExecutionFailure, renderChain,
    writeSelfTo, BasicIrr.code, BasicIrr.msg, BasicIrr.tags, BasicIrr.trace,
    GetCodeStr]
  simp [String.append_assoc]

/-- A post-construction mutation of a node: `SetCode` or `SetTag`. -/
inductive NodeOp : Type where
  | opSetCode (v : Int)
  | opSetTag (key val : String)

def NodeOp.isSetCode : NodeOp → Bool
  | .opSetCode _ => true
  | .opSetTag _ _ => false

def applyOp (ir : BasicIrr) : NodeOp → BasicIrr
  | .opSetCode v => SetCode ir v
  | .opSetTag k v => SetTag ir k v

/-- A node as mutated by a sequence of `SetCode`/`SetTag` calls. -/
def applyOps (ir : BasicIrr) (ops : List NodeOp) : BasicIrr :=
  ops.foldl applyOp ir

theorem codeSet_setTag (ir : BasicIrr) (k v : String) :
    (SetTag ir k v).codeSet = ir.codeSet := by
  cases ir with
  | mk c cs m t tg i => rfl

theorem codeSet_applyOps :
    ∀ (ops : List NodeOp) (ir : BasicIrr),
      (applyOps ir ops).codeSet = (ir.codeSet || ops.any NodeOp.isSetCode)
  | [], ir => by simp [applyOps]
  | op :: rest, ir => by
    cases op with
    | opSetCode v =>
      have ih := codeSet_applyOps rest (SetCode ir v)
      cases ir with
      | mk c cs m t tg i =>
        simp [applyOps, applyOp, SetCode, NodeOp.isSetCode,
          BasicIrr.codeSet] at ih ⊢
        simpa [applyOps] using ih
    | opSetTag k v =>
      have ih := codeSet_applyOps rest (SetTag ir k v)
      simp only [applyOps, List.foldl_cons, applyOp] at ih ⊢
      rw [ih, codeSet_setTag, List.any_cons]
      simp [NodeOp.isSetCode]

/-! ### The tag store with explicit slice identity

The node-level `SetTag`/`GetTag` above capture the content of the tag map.
The Go methods additionally promise freshness: `SetTag` deep-copies the map
before the atomic swap, and `GetTag` returns a copy of the value slice, so
callers can never alias internal storage.  To state that, the following
model makes allocation explicit: a heap of string slices, where an index is
a slice's identity, and the map stores pointers into the heap. -/

/-- Dereference a slice pointer. -/
def heapRead (h : List (List String)) (p : Nat) : List String := h.getD p []

theorem heapRead_append_lt (h l : List (List String)) (p : Nat)
    (hp : p < h.length) : heapRead (h ++ l) p = heapRead h p := by
  simp [heapRead, List.getD, List.getElem?_append, hp]

theorem heapRead_append_self (h : List (List String)) (x : List String) :
    heapRead (h ++ [x]) h.length = x := by
  simp [heapRead, List.getD, List.getElem?_concat_length]

theorem heapRead_append_head (h : List (List String)) (x : List String)
    (l : List (List String)) : heapRead (h ++ x :: l) h.length = x := by
  rw [show h ++ x :: l = (h ++ [x]) ++ l from by simp]
  rw [heapRead_append_lt _ _ _ (by simp), heapRead_append_self]

theorem heapRead_set_ne (h : List (List String)) (x : List String)
    (p q : Nat) (hne : p ≠ q) : heapRead (h.set p x) q = heapRead h q := by
  simp [heapRead, List.getD, List.getElem?_set_ne hne]

theorem heapRead_set_self (h : List (List String)) (x : List String)
    (p : Nat) (hp : p < h.length) : heapRead (h.set p x) p = x := by
  simp [heapRead, List.getD, List.getElem?_set_self hp]

/-- First-match lookup in the pointer map (`(*tagMap)[key]`). -/
def lookupPtr : List (String × Nat) → String → Option Nat
  | [], _ => none
  | (k, p) :: rest, key => if k = key then some p else lookupPtr rest key

/-- A node's tag storage as the Go code holds it: the heap of live slices
and the atomic map pointer (`none` = nil map, never yet stored). -/
structure TagStore where
  heap : List (List String)
  tagsPtr : Option (List (String × Nat))

def TagStore.empty : TagStore := ⟨[], none⟩

/-- The copy loop of `SetTag`: each existing entry gets a freshly allocated
copy of its slice (read from the original heap), and the new map points at
the copies. -/
def copyInto (h0 : List (List String)) :
    List (String × Nat) → List (List String) × List (String × Nat) →
      List (List String) × List (String × Nat)
  | [], acc => acc
  | kv :: rest, acc =>
    copyInto h0 rest (acc.1 ++ [heapRead h0 kv.2], acc.2 ++ [(kv.1, acc.1.length)])

/-- `SetTag` (part of the Go method besides the lock): load the map (nil
becomes empty), deep-copy every entry, append the value to the key's fresh
slice (allocating it if the key is new), and store the new map. -/
def TagStore.setTag (st : TagStore) (key val : String) : TagStore :=
  let old := st.tagsPtr.getD []
  let copied := copyInto st.heap old (st.heap, [])
  match lookupPtr copied.2 key with
  | some p => ⟨copied.1.set p (heapRead copied.1 p ++ [val]), some copied.2⟩
  | none => ⟨copied.1 ++ [[val]], some (copied.2 ++ [(key, copied.1.length)])⟩

/-- `GetTag`: nil map or absent key returns the nil slice (`none`);
otherwise a fresh slice is allocated holding a copy of the values, and a
pointer to that fresh allocation is returned. -/
def TagStore.getTag (st : TagStore) (key : String) : TagStore × Option Nat :=
  match st.tagsPtr with
  | none => (st, none)
  | some m =>
    match lookupPtr m key with
    | none => (st, none)
    | some p => (⟨st.heap ++ [heapRead st.heap p], st.tagsPtr⟩, some st.heap.length)

/-- A caller mutating a slice it holds: `slice[i] = v`. -/
def TagStore.writeAt (st : TagStore) (p i : Nat) (v : String) : TagStore :=
  ⟨st.heap.set p ((heapRead st.heap p).set i v), st.tagsPtr⟩

/-- What `GetTag` lets the caller observe: the dereferenced returned slice
(`none` = nil slice). -/
def TagStore.getTagValues (st : TagStore) (key : String) : Option (List String) :=
  match st.getTag key with
  | (st', some p) => some (heapRead st'.heap p)
  | (_, none) => none

/-- The content abstraction of a pointer map over a heap. -/
def mapContent (heap : List (List String)) (m : List (String × Nat)) :
    List (String × List String) :=
  m.map (fun kv => (kv.1, heapRead heap kv.2))

/-- The content abstraction of a tag store. -/
def TagStore.content (st : TagStore) : List (String × List String) :=
  mapContent st.heap (st.tagsPtr.getD [])

/-- Store sanity: every map pointer is live, and pointers are strictly
increasing (in particular pairwise distinct). -/
def TagStore.inv (st : TagStore) : Prop :=
  (∀ kv ∈ (st.tagsPtr.getD [] : List (String × Nat)), kv.2 < st.heap.length) ∧
    List.Pairwise (fun a b : String × Nat => a.2 < b.2) (st.tagsPtr.getD [])

/-- A node built by a sequence of `SetTag key val` calls on a fresh node. -/
def buildStore (ops : List (String × String)) : TagStore :=
  ops.foldl (fun st kv => st.setTag kv.1 kv.2) TagStore.empty

/-- The values the claim says `GetTag` must yield: everything passed to
`SetTag` for the key, in call order.  (Stated from the spec's words.) -/
def tagSpecValues : List (String × String) → String → List String
  | [], _ => []
  | kv :: rest, key =>
    if kv.1 = key then kv.2 :: tagSpecValues rest key else tagSpecValues rest key

/-- The pointers handed out by the copy loop: consecutive fresh indices. -/
def ptrTags (base : Nat) : List (String × Nat) → List (String × Nat)
  | [] => []
  | kv :: rest => (kv.1, base) :: ptrTags (base + 1) rest

theorem copyInto_fst (h0 : List (List String)) :
    ∀ (l : List (String × Nat)) (acc : List (List String) × List (String × Nat)),
      (copyInto h0 l acc).1 = acc.1 ++ l.map (fun kv => heapRead h0 kv.2)
  | [], acc => by simp [copyInto]
  | kv :: rest, acc => by
    simp only [copyInto, copyInto_fst h0 rest, List.map_cons]
    simp

theorem copyInto_snd (h0 : List (List String)) :
    ∀ (l : List (String × Nat)) (acc : List (List String) × List (String × Nat)),
      (copyInto h0 l acc).2 = acc.2 ++ ptrTags acc.1.length l
  | [], acc => by simp [copyInto, ptrTags]
  | kv :: rest, acc => by
    simp only [copyInto, copyInto_snd h0 rest, ptrTags]
    simp

theorem ptrTags_mem_bounds :
    ∀ (l : List (String × Nat)) (base : Nat) (kv : String × Nat),
      kv ∈ ptrTags base l → base ≤ kv.2 ∧ kv.2 < base + l.length
  | [], base, kv => by simp [ptrTags]
  | a :: rest, base, kv => by
    intro hmem
    simp only [ptrTags, List.mem_cons] at hmem
    rcases hmem with h | h
    · subst h; simp
    · have := ptrTags_mem_bounds rest (base + 1) kv h
      constructor
      · omega
      · simp only [List.length_cons]; omega

theorem ptrTags_pairwise_lt :
    ∀ (l : List (String × Nat)) (base : Nat),
      List.Pairwise (fun a b : String × Nat => a.2 < b.2) (ptrTags base l)
  | [], base => by simp [ptrTags]
  | a :: rest, base => by
    simp only [ptrTags, List.pairwise_cons]
    refine ⟨?_, ptrTags_pairwise_lt rest (base + 1)⟩
    intro kv hmem
    have := ptrTags_mem_bounds rest (base + 1) kv hmem
    omega

theorem mapContent_append (heap ext : List (List String)) :
    ∀ (m : List (String × Nat)), (∀ kv ∈ m, kv.2 < heap.length) →
      mapContent (heap ++ ext) m = mapContent heap m
  | [], _ => rfl
  | kv :: rest, hb => by
    simp only [mapContent, List.map_cons] at *
    rw [heapRead_append_lt _ _ _ (hb kv (by simp))]
    have := mapContent_append heap ext rest (fun x hx => hb x (by simp [hx]))
    simp only [mapContent] at this
    rw [this]

theorem mapContent_set_ne (heap : List (List String)) (x : List String) (p : Nat) :
    ∀ (m : List (String × Nat)), (∀ kv ∈ m, kv.2 ≠ p) →
      mapContent (heap.set p x) m = mapContent heap m
  | [], _ => rfl
  | kv :: rest, hb => by
    simp only [mapContent, List.map_cons]
    rw [heapRead_set_ne _ _ _ _ (fun he => hb kv (by simp) he.symm)]
    have := mapContent_set_ne heap x p rest (fun y hy => hb y (by simp [hy]))
    simp only [mapContent] at this
    rw [this]

/-- The copies made by the copy loop have the same content as the
originals. -/
theorem mapContent_copy (h0 : List (List String)) :
    ∀ (l : List (String × Nat)) (h : List (List String)),
      mapContent (h ++ l.map (fun kv => heapRead h0 kv.2)) (ptrTags h.length l) =
        mapContent h0 l
  | [], h => rfl
  | kv :: rest, h => by
    simp only [mapContent, ptrTags, List.map_cons]
    rw [heapRead_append_head]
    have step : h ++ heapRead h0 kv.2 :: rest.map (fun kv => heapRead h0 kv.2) =
        (h ++ [heapRead h0 kv.2]) ++ rest.map (fun kv => heapRead h0 kv.2) := by simp
    rw [step]
    have ih := mapContent_copy h0 rest (h ++ [heapRead h0 kv.2])
    simp only [mapContent, List.length_append, List.length_cons,
      List.length_nil, Nat.zero_add] at ih
    rw [ih]

theorem lookupPtr_mem :
    ∀ (m : List (String × Nat)) (key : String) (p : Nat),
      lookupPtr m key = some p → (key, p) ∈ m
  | [], key, p => by simp [lookupPtr]
  | (k, q) :: rest, key, p => by
    intro h
    simp only [lookupPtr] at h
    by_cases hk : k = key
    · rw [if_pos hk] at h
      cases h
      subst hk
      simp
    · rw [if_neg hk] at h
      exact List.mem_cons_of_mem _ (lookupPtr_mem rest key p h)

theorem getTagAssoc_mapContent (heap : List (List String)) :
    ∀ (m : List (String × Nat)) (key : String),
      getTagAssoc (mapContent heap m) key = (lookupPtr m key).map (heapRead heap)
  | [], key => rfl
  | (k, q) :: rest, key => by
    simp only [mapContent, List.map_cons, getTagAssoc, lookupPtr]
    by_cases hk : k = key
    · simp [hk]
    · simp only [if_neg hk]
      exact getTagAssoc_mapContent heap rest key

theorem setTagAssoc_notMem :
    ∀ (l : List (String × List String)) (key val : String),
      getTagAssoc l key = none → setTagAssoc l key val = l ++ [(key, [val])]
  | [], key, val => by simp [setTagAssoc]
  | (k, vs) :: rest, key, val => by
    intro h
    simp only [getTagAssoc] at h
    by_cases hk : k = key
    · rw [if_pos hk] at h; cases h
    · rw [if_neg hk] at h
      simp only [setTagAssoc, if_neg hk, List.cons_append]
      rw [setTagAssoc_notMem rest key val h]

/-- Appending a value to the slice found by the map lookup is, at content
level, exactly the first-match update of the association list. -/
theorem mapContent_set (heap : List (List String)) :
    ∀ (m : List (String × Nat)) (key val : String) (p : Nat),
      lookupPtr m key = some p → (∀ kv ∈ m, kv.2 < heap.length) →
      List.Pairwise (fun a b : String × Nat => a.2 ≠ b.2) m →
      mapContent (heap.set p (heapRead heap p ++ [val])) m =
        setTagAssoc (mapContent heap m) key val
  | [], key, val, p => by simp [lookupPtr]
  | (k, q) :: rest, key, val, p => by
    intro hl hb hp
    simp only [List.pairwise_cons] at hp
    simp only [lookupPtr] at hl
    by_cases hk : k = key
    · rw [if_pos hk] at hl
      cases hl
      simp only [mapContent, List.map_cons, setTagAssoc, if_pos hk]
      rw [heapRead_set_self _ _ _ (hb (k, q) (by simp))]
      have := mapContent_set_ne heap (heapRead heap q ++ [val]) q rest
        (fun kv hkv heq => by
          have := hp.1 kv hkv
          simp only [heq] at this
          exact this rfl)
      simp only [mapContent] at this
      rw [this]
    · rw [if_neg hk] at hl
      simp only [mapContent, List.map_cons, setTagAssoc, if_neg hk]
      have hqp : q ≠ p := by
        have hmem := lookupPtr_mem rest key p hl
        exact hp.1 (key, p) hmem
      rw [heapRead_set_ne _ _ _ _ (fun he => hqp he.symm)]
      have ih := mapContent_set heap rest key val p hl
        (fun kv hkv => hb kv (by simp [hkv])) hp.2
      simp only [mapContent] at ih
      rw [ih]

/-- `SetTag` performs the first-match append at content level and preserves
the store invariant. -/
theorem setTag_content (st : TagStore) (key val : String) (hinv : st.inv) :
    (st.setTag key val).content = setTagAssoc st.content key val ∧
      (st.setTag key val).inv := by
  obtain ⟨hb, hlt⟩ := hinv
  simp only [TagStore.setTag]
  have hfst := copyInto_fst st.heap (st.tagsPtr.getD []) (st.heap, [])
  have hsnd := copyInto_snd st.heap (st.tagsPtr.getD []) (st.heap, [])
  simp only [List.nil_append] at hsnd
  set old := st.tagsPtr.getD [] with hold
  set copied := copyInto st.heap old (st.heap, []) with hcopied
  have hclen : copied.1.length = st.heap.length + old.length := by
    rw [hfst]; simp
  have hcbound : ∀ kv ∈ copied.2, kv.2 < copied.1.length := by
    intro kv hkv
    rw [hsnd] at hkv
    have := ptrTags_mem_bounds old st.heap.length kv hkv
    omega
  have hcpair : List.Pairwise (fun a b : String × Nat => a.2 < b.2) copied.2 := by
    rw [hsnd]; exact ptrTags_pairwise_lt old st.heap.length
  have hccontent : mapContent copied.1 copied.2 = st.content := by
    rw [hfst, hsnd]
    exact mapContent_copy st.heap old st.heap
  cases hl : lookupPtr copied.2 key with
  | some p =>
    constructor
    · show mapContent (copied.1.set p (heapRead copied.1 p ++ [val])) copied.2 =
        setTagAssoc st.content key val
      rw [mapContent_set copied.1 copied.2 key val p hl hcbound
        (hcpair.imp (fun hab => Nat.ne_of_lt hab)), hccontent]
    · constructor
      · intro kv hkv
        simp only [Option.getD_some]
        rw [List.length_set]
        exact hcbound kv hkv
      · exact hcpair
  | none =>
    constructor
    · show mapContent (copied.1 ++ [[val]]) (copied.2 ++ [(key, copied.1.length)]) =
        setTagAssoc st.content key val
      have habsent : getTagAssoc st.content key = none := by
        rw [← hccontent, getTagAssoc_mapContent, hl]
        rfl
      rw [setTagAssoc_notMem st.content key val habsent]
      have hsplit : mapContent (copied.1 ++ [[val]]) (copied.2 ++ [(key, copied.1.length)]) =
          mapContent (copied.1 ++ [[val]]) copied.2 ++
            [(key, heapRead (copied.1 ++ [[val]]) copied.1.length)] := by
        simp [mapContent]
      rw [hsplit, mapContent_append copied.1 [[val]] copied.2 hcbound, hccontent,
        heapRead_append_self]
    · constructor
      · intro kv hkv
        simp only [Option.getD_some] at hkv ⊢
        rw [List.length_append, List.length_cons, List.length_nil]
        rcases List.mem_append.mp hkv with h | h
        · have := hcbound kv h; omega
        · simp only [List.mem_singleton] at h
          subst h; simp
      · simp only [Option.getD_some]
        rw [List.pairwise_append]
        refine ⟨hcpair, by simp, ?_⟩
        intro a ha b hb'
        simp only [List.mem_singleton] at hb'
        subst hb'
        exact hcbound a ha

theorem empty_inv : TagStore.empty.inv := by
  constructor
  · intro kv hkv; simp [TagStore.empty] at hkv
  · simp [TagStore.empty]

theorem empty_content : TagStore.empty.content = [] := rfl

/-- Folding `SetTag` calls over any invariant-respecting store refines the
association-list fold, and preserves the invariant. -/
theorem foldl_setTag_spec :
    ∀ (ops : List (String × String)) (st : TagStore), st.inv →
      (ops.foldl (fun st kv => st.setTag kv.1 kv.2) st).inv ∧
        (ops.foldl (fun st kv => st.setTag kv.1 kv.2) st).content =
          ops.foldl (fun l kv => setTagAssoc l kv.1 kv.2) st.content
  | [], st, hinv => ⟨hinv, rfl⟩
  | kv :: rest, st, hinv => by
    obtain ⟨hc, hi⟩ := setTag_content st kv.1 kv.2 hinv
    obtain ⟨hinv', heq⟩ := foldl_setTag_spec rest (st.setTag kv.1 kv.2) hi
    refine ⟨hinv', ?_⟩
    simp only [List.foldl_cons, heq, hc]

/-- `GetTag` observes exactly the content-level lookup. -/
theorem getTagValues_eq_content (st : TagStore)
    (hb : ∀ kv ∈ (st.tagsPtr.getD [] : List (String × Nat)), kv.2 < st.heap.length)
    (key : String) :
    st.getTagValues key = getTagAssoc st.content key := by
  cases hptr : st.tagsPtr with
  | none =>
    simp [TagStore.getTagValues, TagStore.getTag, TagStore.content, hptr,
      mapContent, getTagAssoc]
  | some m =>
    cases hl : lookupPtr m key with
    | none =>
      simp only [TagStore.getTagValues, TagStore.getTag, hptr, hl,
        TagStore.content, getTagAssoc_mapContent]
      simp [hl, hptr]
    | some p =>
      simp only [TagStore.getTagValues, TagStore.getTag, hptr, hl,
        TagStore.content, getTagAssoc_mapContent]
      simp only [hptr, Option.getD_some, hl, getTagAssoc_mapContent,
        Option.map_some]
      rw [heapRead_append_self]
      rfl

/-- The slice `GetTag` hands out is a fresh allocation: overwriting any of
its cells does not change what a later `GetTag` on the same store and key
observes. -/
theorem writeAt_returned_slice (st : TagStore) (key : String)
    (st' : TagStore) (p : Nat)
    (hb : ∀ kv ∈ (st.tagsPtr.getD [] : List (String × Nat)), kv.2 < st.heap.length)
    (hget : st.getTag key = (st', some p)) (i : Nat) (v : String) :
    (st'.writeAt p i v).getTagValues key = st.getTagValues key := by
  cases hptr : st.tagsPtr with
  | none => simp [TagStore.getTag, hptr] at hget
  | some m =>
    cases hl : lookupPtr m key with
    | none => simp [TagStore.getTag, hptr, hl] at hget
    | some q =>
      simp only [TagStore.getTag, hptr, hl] at hget
      obtain ⟨hst', hp⟩ := Prod.mk.injEq .. ▸ hget
      cases hp' : hp
      have hq : q < st.heap.length := by
        have := hb (key, q) (by simp [hptr]; exact lookupPtr_mem m key q hl)
        exact this
      subst hst'
      simp only [TagStore.writeAt, TagStore.getTagValues, TagStore.getTag, hptr, hl]
      rw [heapRead_append_self]
      have hqp : q ≠ st.heap.length := Nat.ne_of_lt hq
      rw [heapRead_append_self]
      rw [heapRead_set_ne _ _ _ _ (fun he => hqp he.symm)]
      rw [heapRead_append_lt _ _ _ hq]

theorem getTagAssoc_setTagAssoc :
    ∀ (l : List (String × List String)) (k v key : String),
      getTagAssoc (setTagAssoc l k v) key =
        if k = key then some ((getTagAssoc l key).getD [] ++ [v])
        else getTagAssoc l key
  | [], k, v, key => by
    by_cases hk : k = key <;> simp [setTagAssoc, getTagAssoc, hk]
  | (k', vs) :: rest, k, v, key => by
    by_cases hk' : k' = k
    · subst hk'
      by_cases hk : k' = key <;>
        simp [setTagAssoc, getTagAssoc, hk]
    · by_cases hk : k = key
      · subst hk
        by_cases hkey : k' = k
        · exact absurd hkey hk'
        · simp only [setTagAssoc, if_neg hk', getTagAssoc, if_neg hkey]
          rw [getTagAssoc_setTagAssoc rest k v k]
          simp
      · simp only [setTagAssoc, if_neg hk', getTagAssoc]
        by_cases hkey : k' = key
        · simp [hkey, hk]
        · simp only [if_neg hkey]
          rw [getTagAssoc_setTagAssoc rest k v key, if_neg hk]

/-- Folding the per-call updates yields exactly the insertion-order values:
an untouched key stays `none` (nil), a touched key accumulates its values
in call order. -/
theorem getTagAssoc_foldl :
    ∀ (ops : List (String × String)) (l : List (String × List String)) (key : String),
      getTagAssoc (ops.foldl (fun l kv => setTagAssoc l kv.1 kv.2) l) key =
        (match getTagAssoc l key with
         | some vs => some (vs ++ tagSpecValues ops key)
         | none =>
           if tagSpecValues ops key = [] then none else some (tagSpecValues ops key))
  | [], l, key => by
    cases h : getTagAssoc l key <;> simp [tagSpecValues, h]
  | kv :: rest, l, key => by
    simp only [List.foldl_cons]
    rw [getTagAssoc_foldl rest (setTagAssoc l kv.1 kv.2) key]
    rw [getTagAssoc_setTagAssoc l kv.1 kv.2 key]
    by_cases hk : kv.1 = key
    · simp only [if_pos hk, tagSpecValues, hk, if_pos rfl]
      cases h : getTagAssoc l key <;> simp [h]
    · simp only [if_neg hk, tagSpecValues, hk]
      simp

/-- The store built by a sequence of `SetTag` calls observes, per key, the
nil slice when the key was never set, else the insertion-ordered values. -/
theorem getTagValues_buildStore (ops : List (String × String)) (key : String) :
    (buildStore ops).getTagValues key =
      if tagSpecValues ops key = [] then none
      else some (tagSpecValues ops key) := by
  obtain ⟨hinv, hcontent⟩ := foldl_setTag_spec ops TagStore.empty empty_inv
  rw [show buildStore ops = ops.foldl (fun st kv => st.setTag kv.1 kv.2) TagStore.empty
    from rfl]
  rw [getTagValues_eq_content _ hinv.1 key, hcontent, empty_content]
  rw [getTagAssoc_foldl ops [] key]
  simp [getTagAssoc]

/-- The invariant of a store built by `SetTag` calls. -/
theorem buildStore_inv (ops : List (String × String)) : (buildStore ops).inv :=
  (foldl_setTag_spec ops TagStore.empty empty_inv).1

/-- Stated from the spec's words: the inner error "already carries a Trace
Record" whose frame is "structurally equal" to the one that would be
captured at the call site. -/
def carriesEqualTrace (innerErr : Err) (captured : TraceInfo) : Bool :=
  match innerErr with
  | .node b => decide (b.trace = some captured)
  | _ => false

theorem trackSkip_trace_isNone (captured : TraceInfo) (innerErr : Err) (msg : String) :
    (GetTraceInfo (TrackSkip captured innerErr msg)).isNone =
      carriesEqualTrace innerErr captured := by
  cases innerErr with
  | nil => rfl
  | node b =>
    cases b with
    | mk c cs m t tg i =>
      cases t with
      | none => rfl
      | some tr =>
        by_cases h : tr = captured <;>
          simp [GetTraceInfo, TrackSkip, createTraceInfo, BasicIrr.trace,
            BasicIrr.withTrace, BasicIrr.withInner, newBasicIrr,
            carriesEqualTrace, h]
  | foreign m cc gc u => rfl

theorem trackSkip_trace_cases (captured : TraceInfo) (innerErr : Err) (msg : String) :
    GetTraceInfo (TrackSkip captured innerErr msg) = none ∨
      GetTraceInfo (TrackSkip captured innerErr msg) = some captured := by
  cases innerErr with
  | nil => right; rfl
  | node b =>
    cases b with
    | mk c cs m t tg i =>
      cases t with
      | none => right; rfl
      | some tr =>
        by_cases h : tr = captured
        · left
          simp [GetTraceInfo, TrackSkip, createTraceInfo, BasicIrr.trace,
            BasicIrr.withTrace, BasicIrr.withInner, newBasicIrr, h]
        · right
          simp [GetTraceInfo, TrackSkip, createTraceInfo, BasicIrr.trace,
            BasicIrr.withTrace, BasicIrr.withInner, newBasicIrr, h]
  | foreign m cc gc u => right; rfl

/-- A traversal whose visitor panics at its very first call returns the
recovered error with the untouched visitor state. -/
theorem traverseToSource_firstPanic (ir : BasicIrr) (s : Nat) (payload : String) :
    TraverseToSource (fun _ _ st => (st, .thrown (.pnon payload))) ir s =
      (s, recoverVal (.pnon payload)) := by
  cases ir with
  | mk c cs m t tg i =>
    cases i <;> rfl

theorem unwrap_recoverVal_pnon (t : String) :
    unwrap (recoverVal (.pnon t)) = errUntypedExecutionFailure := rfl

/-! ## Claim theorems -/

/-- C1: Root vs Source distinction.  `Root` follows the generic unwrap
capability to the last link of the walk (the node itself when it has no
inner), while `Source` walks only node-typed inner links and returns the
first absent-inner node or the first foreign error, never consulting a
foreign error's own unwrap capability; concretely, for `N → M → F` with `F`
a foreign error wrapping the foreign `R`, `N.Root() = R` while
`N.Source() = F`. -/
theorem C1_root_vs_source :
    (∀ ir : BasicIrr, Root ir = (visitList (.node ir)).getLastD (.node ir)) ∧
    (∀ ir : BasicIrr, Source ir = sourceSpec ir) ∧
    (∀ dN dM : String,
      Root (Wrap (.node (Wrap (.foreign "f" none none (.foreign "r" none none .nil)) dM)) dN) =
        .foreign "r" none none .nil ∧
      Source (Wrap (.node (Wrap (.foreign "f" none none (.foreign "r" none none .nil)) dM)) dN) =
        .foreign "f" none none (.foreign "r" none none .nil)) := by
  refine ⟨?_, Source_eq_sourceSpec, ?_⟩
  · intro ir
    exact (root_eq_getLastD (.node ir) (.node ir) (by intro h; cases h)).symm
  · intro dN dM
    exact ⟨rfl, rfl⟩

/-- C2: Renderer code de-duplication.  `ToString` renders the closed form
`renderChain`, in which a node's `code(<N>), ` prefix is written only when
`lastCode != code` (with `lastCode` seeded 0 and updated to each rendered
node's code) and is empty whenever the code is 0 (`GetCodeStr`), a foreign
link is rendered by its own `Error()` string, and the separator follows
every link except the last; concretely the 7/7/9 chain renders as
`code(9), top; code(7), mid; root`. -/
theorem C2_renderer_code_dedup :
    (∀ (ir : BasicIrr) (printTrace : Bool) (split : String),
      ToString ir printTrace split = renderChain printTrace split ir 0) ∧
    ToString
      (SetCode (Wrap (.node (SetCode (Wrap (.node (SetCode (Error "root") 7)) "mid") 7)) "top") 9)
      false "; " = "code(9), top; code(7), mid; root" :=
  ⟨ToString_eq_renderChain, by decide⟩

/-- C3: NearestCode order.  `NearestCode` returns the first non-zero code
probed along the generic unwrap walk starting at the receiver (0 when no
link yields one); concretely, on a 3-level chain whose innermost node alone
carries code 500, the outermost node's `NearestCode()` is 500. -/
theorem C3_nearestCode_order :
    (∀ ir : BasicIrr, NearestCode ir = firstNonzeroCode (visitList (.node ir))) ∧
    NearestCode (Wrap (.node (Wrap (.node (ErrorC 500 "in")) "mid")) "out") = 500 :=
  ⟨NearestCode_eq_firstNonzero, by decide⟩

/-- C4: RootCode terminal-only semantics.  `RootCode` reads exactly the
code capability of the source link computed by the source walk (0 when that
link exposes none), never an intermediate link; concretely, for
`e2 := Wrap(Wrap(base, "query failed"), "request failed").SetCode(500)`
over a plain foreign `base`, `e2.RootCode() = 0` while
`e2.NearestCode() = 500`. -/
theorem C4_rootCode_terminal :
    (∀ ir : BasicIrr, RootCode ir = readCodeCap (sourceSpec ir)) ∧
    RootCode (SetCode (Wrap
      (.node (Wrap (.foreign "db timeout" none none .nil) "query failed"))
      "request failed") 500) = 0 ∧
    NearestCode (SetCode (Wrap
      (.node (Wrap (.foreign "db timeout" none none .nil) "query failed"))
      "request failed") 500) = 500 :=
  ⟨RootCode_eq_readCode_sourceSpec, by decide, by decide⟩

/-- C5 (counterexample): in `TraverseToSource`, a visitor that returns the
non-nil error "A" at its very first call — a non-source link of a two-node
chain — is nonetheless invoked a second time (the call counter threaded
through the state reaches 2), and the traversal's overall result is the
error "B" returned by the second (source) call, not "A": the visitor's
non-nil return did not stop the traversal and was not propagated. -/
theorem C5_counterexample :
    (TraverseToSource
      (fun _ isSource n =>
        (n + 1, .ret (if isSource then .foreign "B" none none .nil
                      else .foreign "A" none none .nil)))
      (Wrap (.node (Error "inner")) "outer") 0).fst = 2 ∧
    (TraverseToSource
      (fun _ isSource n =>
        (n + 1, .ret (if isSource then .foreign "B" none none .nil
                      else .foreign "A" none none .nil)))
      (Wrap (.node (Error "inner")) "outer") 0).snd =
      .foreign "B" none none .nil := by
  exact ⟨by decide, by decide⟩

/-- C5 (amended): in `TraverseToRoot` a non-nil visitor return stops the
traversal immediately — no later link is visited, as the loop replays the
`runVisits` sequence, which makes no further calls after a non-nil return —
and that error is propagated as the overall result; in `TraverseToSource`,
however, the value returned by the visitor at a non-source node link is
discarded, whatever it is, and the walk continues: only the value returned
at the source call (or at the foreign terminal's call) is propagated. -/
theorem C5_amended :
    (∀ (σ : Type) (fn : Err → σ → σ × VStep) (ir : BasicIrr) (s s' : σ) (r : Err),
      fn (.node ir) s = (s', .ret r) → r ≠ .nil →
        TraverseToRoot fn ir s = (s', r)) ∧
    (∀ (σ : Type) (fn : Err → σ → σ × VStep) (e : Err) (s : σ),
      traverseToRootAux fn e s = runVisits fn (visitList e) s) ∧
    (∀ (σ : Type) (fn : Err → Bool → σ → σ × VStep) (c : Int) (cs : Bool)
      (m : String) (t : Option TraceInfo) (tg : List (String × List String))
      (next : BasicIrr) (s s' : σ) (r : Err),
      fn (.node (.mk c cs m t tg (.node next))) false s = (s', .ret r) →
        traverseToSourceAux fn (.mk c cs m t tg (.node next)) s =
          traverseToSourceAux fn next s') := by
  refine ⟨?_, ?_, ?_⟩
  · intro σ fn ir s s' r h hr
    exact TraverseToRoot_stop fn ir s s' r h hr
  · intro σ fn e s
    exact traverseToRootAux_eq_runVisits fn e s
  · intro σ fn c cs m t tg next s s' r h
    exact traverseToSourceAux_discard fn c cs m t tg next s s' r h

theorem C5_amended_witness :
    TraverseToRoot (fun (_ : Err) (n : Nat) => (n + 1, VStep.ret eExit))
        (Error "x") 0 = (1, eExit) ∧
    traverseToRootAux (fun (_ : Err) (n : Nat) => (n + 1, VStep.ret .nil))
        (.node (Error "x")) 0 =
      runVisits (fun (_ : Err) (n : Nat) => (n + 1, VStep.ret .nil))
        (visitList (.node (Error "x"))) 0 ∧
    traverseToSourceAux (fun (_ : Err) (_ : Bool) (n : Nat) => (n + 1, VStep.ret eExit))
        (Wrap (.node (Error "inner")) "outer") 0 =
      traverseToSourceAux (fun (_ : Err) (_ : Bool) (n : Nat) => (n + 1, VStep.ret eExit))
        (Error "inner") 1 :=
  ⟨C5_amended.1 Nat _ (Error "x") 0 1 eExit rfl (by decide),
   C5_amended.2.1 Nat _ (.node (Error "x")) 0,
   C5_amended.2.2 Nat _ 0 false "outer" none [] (Error "inner") 0 1 eExit rfl⟩

/-- C6: Panic containment.  A panic escaping either traversal loop is
converted at the traversal boundary into a normally returned error: an
error payload is returned as-is; any other payload yields the wrap of the
`ErrUntypedExecutionFailure` sentinel whose rendered message embeds the
payload's text after `panic = `; in particular a visitor panicking with a
non-error payload at the first call of `TraverseToSource` makes the call
return normally with that error. -/
theorem C6_panic_containment :
    (∀ (σ : Type) (fn : Err → σ → σ × VStep) (ir : BasicIrr) (s s' : σ) (p : Panicked),
      traverseToRootAux fn (.node ir) s = .panicked s' p →
        TraverseToRoot fn ir s = (s', recoverVal p)) ∧
    (∀ (σ : Type) (fn : Err → Bool → σ → σ × VStep) (ir : BasicIrr) (s s' : σ) (p : Panicked),
      traverseToSourceAux fn ir s = .panicked s' p →
        TraverseToSource fn ir s = (s', recoverVal p)) ∧
    (∀ e : Err, recoverVal (.perr e) = e) ∧
    (∀ t : String, unwrap (recoverVal (.pnon t)) = errUntypedExecutionFailure) ∧
    (∀ t : String, Err.errorString (recoverVal (.pnon t)) =
      "panic = " ++ (t ++ ", untyped execution failure")) ∧
    (∀ (ir : BasicIrr) (s : Nat) (payload : String),
      TraverseToSource (fun _ _ st => (st, .thrown (.pnon payload))) ir s =
        (s, recoverVal (.pnon payload))) := by
  refine ⟨?_, ?_, ?_, ?_, ?_, ?_⟩
  · intro σ fn ir s s' p h
    exact TraverseToRoot_recover fn ir s s' p h
  · intro σ fn ir s s' p h
    exact TraverseToSource_recover fn ir s s' p h
  · intro e; rfl
  · intro t; rfl
  · intro t; exact errorString_recoverVal_pnon t
  · intro ir s payload; exact traverseToSource_firstPanic ir s payload

theorem C6_panic_containment_witness :
    TraverseToRoot (fun (_ : Err) (n : Nat) => (n, VStep.thrown (.pnon "boom")))
        (Error "x") 0 = (0, recoverVal (.pnon "boom")) ∧
    TraverseToSource (fun (_ : Err) (_ : Bool) (n : Nat) => (n, VStep.thrown (.perr eExit)))
        (Error "x") 0 = (0, recoverVal (.perr eExit)) :=
  ⟨C6_panic_containment.1 Nat _ (Error "x") 0 0 (.pnon "boom") rfl,
   C6_panic_containment.2.1 Nat _ (Error "x") 0 0 (.perr eExit) rfl⟩

/-- C7: Explicit-zero code asymmetry.  On a node built by the plain
constructor, the flag read by `HasCurrentCode` is true exactly when some
`SetCode` occurs among the node's mutations, regardless of the assigned
value — so `New("a").SetCode(0)` reports true and a fresh `New("a")` false —
while `HasAnyCode` is just `NearestCode() != 0`, so a chain whose every
code was explicitly set to 0 reports false. -/
theorem C7_explicit_zero_asymmetry :
    (∀ (msg : String) (ops : List NodeOp),
      HasCurrentCode (applyOps (Error msg) ops) = ops.any NodeOp.isSetCode) ∧
    HasCurrentCode (SetCode (Error "a") 0) = true ∧
    HasCurrentCode (Error "a") = false ∧
    (∀ ir : BasicIrr, HasAnyCode ir = decide (NearestCode ir ≠ 0)) ∧
    HasAnyCode (SetCode (Wrap (.node (SetCode (Error "a") 0)) "b") 0) = false := by
  refine ⟨?_, by decide, by decide, fun ir => rfl, by decide⟩
  intro msg ops
  have h := codeSet_applyOps ops (Error msg)
  simpa [HasCurrentCode, Error, newBasicIrr, BasicIrr.codeSet] using h

/-- C8 (counterexample): `Trace("x")` on one line and `Track(inner, "y")`
on the very next line capture frames that differ in the line field, so the
collapse test fails and the outer node's trace is present (the fresh
frame), not absent as the claim requires. -/
theorem C8_counterexample :
    GetTraceInfo (Track ⟨"TestTrack", "pkg_test.go", 11⟩
        (.node (Trace ⟨"TestTrack", "pkg_test.go", 10⟩ "x")) "y") =
      some ⟨"TestTrack", "pkg_test.go", 11⟩ := by
  decide

/-- C8 (amended): `Track`/`TrackSkip` leave the new node's trace absent
exactly when the inner error is an Error Node already carrying a Trace
Record structurally equal to the frame captured at the call site, and
otherwise attach exactly the captured frame; since a `Track` on the line
after a `Trace` captures a frame differing in the line number, the trace is
present in that scenario — the collapse fires when the captured frames
coincide, as in a same-line `Track(Trace("x"), "y")`. -/
theorem C8_amended :
    (∀ (captured : TraceInfo) (innerErr : Err) (msg : String),
      (GetTraceInfo (TrackSkip captured innerErr msg)).isNone =
        carriesEqualTrace innerErr captured) ∧
    (∀ (captured : TraceInfo) (innerErr : Err) (msg : String),
      GetTraceInfo (TrackSkip captured innerErr msg) = none ∨
        GetTraceInfo (TrackSkip captured innerErr msg) = some captured) ∧
    GetTraceInfo (Track ⟨"TestTrack", "pkg_test.go", 10⟩
        (.node (Trace ⟨"TestTrack", "pkg_test.go", 10⟩ "x")) "y") = none :=
  ⟨trackSkip_trace_isNone, trackSkip_trace_cases, by decide⟩

/-- C9 (counterexample): `GetTag` on a key never set returns the nil slice
(`none` in the model), not a non-nil empty one — both on a fresh node
(nil map) and on a store with other keys present. -/
theorem C9_counterexample :
    (TagStore.empty.getTag "k").2 = none ∧
    ((buildStore [("other", "v")]).getTag "k").2 = none ∧
    GetTag (Error "x") "k" = none := by
  exact ⟨rfl, by decide, rfl⟩

/-- C9 (amended): for a node whose tag store was populated by a sequence of
`SetTag` calls, `GetTag(key)` observes exactly the values passed for that
key in insertion order — the nil slice when the key was never set — and the
returned slice is a fresh copy: overwriting any cell of it leaves what a
subsequent `GetTag` on the same store and key observes unchanged. -/
theorem C9_amended :
    (∀ (ops : List (String × String)) (key : String),
      (buildStore ops).getTagValues key =
        if tagSpecValues ops key = [] then none
        else some (tagSpecValues ops key)) ∧
    (∀ (ops : List (String × String)) (key : String) (st' : TagStore)
      (p i : Nat) (v : String),
      (buildStore ops).getTag key = (st', some p) →
        (st'.writeAt p i v).getTagValues key = (buildStore ops).getTagValues key) ∧
    (buildStore [("k", "a"), ("k", "b")]).getTagValues "k" = some ["a", "b"] := by
  refine ⟨getTagValues_buildStore, ?_, by decide⟩
  intro ops key st' p i v h
  exact writeAt_returned_slice (buildStore ops) key st' p (buildStore_inv ops).1 h i v

theorem C9_amended_witness :
    (((buildStore [("k", "a")]).getTag "k").1.writeAt 1 0 "z").getTagValues "k" =
      (buildStore [("k", "a")]).getTagValues "k" :=
  C9_amended.2.1 [("k", "a")] "k" ((buildStore [("k", "a")]).getTag "k").1 1 0 "z" rfl

/-- C10: the deprecated `GetCode()` and `ClosestCode()` both return exactly
`NearestCode()` — the first non-zero code scanning from the node toward the
root — not the node's own stored code; a zero-code node wrapping a node
with code 7 reports 7 from both while `CurrentCode()` is 0. -/
theorem C10_deprecated_alias :
    (∀ ir : BasicIrr, GetCode ir = NearestCode ir) ∧
    (∀ ir : BasicIrr, ClosestCode ir = NearestCode ir) ∧
    GetCode (Wrap (.node (SetCode (Error "in") 7)) "out") = 7 ∧
    ClosestCode (Wrap (.node (SetCode (Error "in") 7)) "out") = 7 ∧
    CurrentCode (Wrap (.node (SetCode (Error "in") 7)) "out") = 0 :=
  ⟨fun _ => rfl, fun _ => rfl, by decide, by decide, by decide⟩

end Irr
